import Mathlib

/-!
Verification of the polling-based document replication engine in
`src/poll_sync.py` (change_stream_with-polling).

The embedding models BSON documents as ordered field lists, a target
collection as an association list keyed by `_id` value, and the polling
loop of `sync_collection_polling` as an explicit step function over a
loop state (timestamp cursor `lastSync`, identifier cursor
`lastProcessedId`).  Raised exceptions are modelled by `Option`/`Except`
failure values; external (connectivity) errors are injected by an
explicit oracle parameter.
-/

set_option maxHeartbeats 1000000

namespace PollSync

/-- Scalar BSON-style values stored in document fields. -/
inductive Val where
  | str (s : String) : Val
  | int (n : Int) : Val
  | boolV (b : Bool) : Val
  | null : Val
deriving DecidableEq

/-- Mongo strict comparison as used by the sync queries; only numeric
values (timestamps, synthesized ObjectIds) compare. -/
def valLt (a b : Val) : Bool :=
  match a, b with
  | .int x, .int y => x < y
  | _, _ => false

/-- Mongo non-strict comparison, used by the first-poll identifier query. -/
def valLe (a b : Val) : Bool :=
  match a, b with
  | .int x, .int y => x ≤ y
  | _, _ => false

/-- A document: ordered mapping from field names to values (spec §3). -/
structure Document where
  fields : List (String × Val)
deriving DecidableEq

/-- Field access, `doc.get(f)` / `doc[f]` returning `none` when absent. -/
def Document.get (d : Document) (f : String) : Option Val :=
  (d.fields.find? (fun p => p.1 == f)).map Prod.snd

/-- The `$exists: true` probe on a single document. -/
def Document.hasField (d : Document) (f : String) : Bool :=
  (d.get f).isSome

/-- Python truthiness of a dict: an empty dict is falsy. -/
def truthy (d : Document) : Bool :=
  !d.fields.isEmpty

/-- A target collection: finite map from `_id` value to stored document. -/
abbrev Coll := List (Val × Document)

/-- `find_one({"_id": i})` on the target collection. -/
def findOne (c : Coll) (i : Val) : Option Document :=
  (c.find? (fun p => p.1 == i)).map Prod.snd

/-- `insert_one`: raises (returns `none`) on a duplicate `_id`. -/
def insertOne (c : Coll) (i : Val) (d : Document) : Option Coll :=
  if (findOne c i).isSome then none else some ((i, d) :: c)

/-- `replace_one({"_id": i}, d)`: whole-document substitution keyed by `_id`. -/
def replaceOne (c : Coll) (i : Val) (d : Document) : Coll :=
  c.map (fun p => if p.1 == i then (i, d) else p)

/-- Well-formedness of a Mongo collection: every stored document carries
its own key in its `_id` field (true of any real Mongo collection). -/
def WF (c : Coll) : Prop :=
  ∀ p ∈ c, (Prod.snd p).get "_id" = some p.1

/-- The per-document outcome reported by `sync_document` (its log line,
or silence for the unchanged branch). -/
inductive SyncSignal where
  | inserted
  | updated
  | unchanged
deriving DecidableEq

/-- `sync_document`: read the target by the source document's `_id`; if a
(truthy) document is found, replace it when different and do nothing when
equal; otherwise insert the full source document.  `none` models a raised
exception (missing `_id`, or a rejected write), which the function
re-raises to its caller. -/
def sync_document (source_doc : Document) (target : Coll) :
    Option (Coll × SyncSignal) :=
  match source_doc.get "_id" with
  | none => none
  | some doc_id =>
    match findOne target doc_id with
    | some existing_doc =>
      if truthy existing_doc then
        if existing_doc ≠ source_doc then
          some (replaceOne target doc_id source_doc, .updated)
        else
          some (target, .unchanged)
      else
        (insertOne target doc_id source_doc).map (fun c => (c, .inserted))
    | none =>
      (insertOne target doc_id source_doc).map (fun c => (c, .inserted))

/-- The whole target database, as seen through `target_db[collection_name]`. -/
abbrev DB := String → Coll

def dbUpdate (db : DB) (n : String) (c : Coll) : DB :=
  fun m => if m = n then c else db m

/-- `sync_document` acting on the database: only the named collection's
handle is ever touched. -/
def sync_document_db (source_doc : Document) (db : DB) (collection_name : String) :
    Option (DB × SyncSignal) :=
  (sync_document source_doc (db collection_name)).map
    (fun r => (dbUpdate db collection_name r.1, r.2))

/-! ### Ordering-field detection -/

/-- Candidate ordering fields, in the fixed priority order of the source. -/
def timestamp_fields : List String :=
  ["updatedAt", "modifiedAt", "lastModified", "createdAt", "_id"]

/-- The ordering-field probe: the first candidate field for which
`find_one({field: {"$exists": true}})` returns a document. -/
def detectField (source : List Document) : Option String :=
  timestamp_fields.find? (fun f => source.any (fun d => d.hasField f))

/-! ### Batch fetching -/

/-- Filter of the timestamp query `{field: {"$gt": last_sync}}`. -/
def matchesTsQuery (f : String) (last_sync : Int) (d : Document) : Bool :=
  match d.get f with
  | some v => valLt (.int last_sync) v
  | none => false

/-- Filter of the identifier query: `{"_id": {"$gt": last_processed_id}}`,
or `{"_id": {"$gte": hour_ago_id}}` on the very first poll, where
`hour_ago_id` is the ObjectId synthesized from one hour before now. -/
def matchesIdQuery (last_processed_id : Option Val) (hour_ago_id : Int)
    (d : Document) : Bool :=
  match d.get "_id" with
  | some v =>
    match last_processed_id with
    | some i => valLt i v
    | none => valLe (.int hour_ago_id) v
  | none => false

/-- Sort key for `.sort("_id", 1)`; documents admitted by the identifier
query always carry a numeric `_id`. -/
def idKey (d : Document) : Int :=
  match d.get "_id" with
  | some (.int x) => x
  | _ => 0

def insertSorted (d : Document) : List Document → List Document
  | [] => [d]
  | x :: xs => if idKey d ≤ idKey x then d :: x :: xs else x :: insertSorted d xs

/-- Ascending sort by `_id`, modelling `.sort("_id", 1)`. -/
def sortById (l : List Document) : List Document :=
  l.foldr insertSorted []

/-- Timestamp-strategy fetch: filter, database-default order, capped. -/
def fetchBatchTs (source : List Document) (f : String) (last_sync : Int)
    (cap : Nat) : List Document :=
  (source.filter (matchesTsQuery f last_sync)).take cap

/-- Identifier-strategy fetch: filter, sorted ascending by `_id`, capped. -/
def fetchBatchId (source : List Document) (last_processed_id : Option Val)
    (hour_ago_id : Int) (cap : Nat) : List Document :=
  (sortById (source.filter (matchesIdQuery last_processed_id hour_ago_id))).take cap

/-! ### The collection poll loop -/

structure PollConfig where
  batchSize : Nat
  pollInterval : Nat
deriving DecidableEq

/-- The cursor state owned by one collection's loop: the timestamp cursor
`sync_state[collection_name]` and the identifier cursor
`last_processed_id`. -/
structure LoopState where
  lastSync : Int
  lastProcessedId : Option Val
deriving DecidableEq

/-- Reconcile a batch in fetch order, threading `current_batch_last_id`.
A `sync_document` exception aborts the rest of the batch, keeping the
target state reached so far (`Except.error`). -/
def runDocs : List Document → Coll → Option Val → Except Coll (Coll × Nat × Option Val)
  | [], t, last => .ok (t, 0, last)
  | d :: ds, t, _last =>
    match sync_document d t with
    | none => .error t
    | some r =>
      match runDocs ds r.1 (d.get "_id") with
      | .error tb => .error tb
      | .ok (t2, n, l) => .ok (t2, n + 1, l)

inductive CycleOutcome where
  | ok (st : LoopState) (target : Coll) (sleep : Nat)
  | err (st : LoopState) (target : Coll) (sleep : Nat)
deriving DecidableEq

def outState : CycleOutcome → LoopState
  | .ok st _ _ => st
  | .err st _ _ => st

def outTarget : CycleOutcome → Coll
  | .ok _ t _ => t
  | .err _ t _ => t

/-- The batch fetched by one cycle, per the detected strategy. -/
def fetchBatch (cfg : PollConfig) (field : String) (source : List Document)
    (st : LoopState) (hour_ago_id : Int) : List Document :=
  if field = "_id" then
    fetchBatchId source st.lastProcessedId hour_ago_id cfg.batchSize
  else
    fetchBatchTs source field st.lastSync cfg.batchSize

/-- The no-external-error remainder of one iteration of the `while True`
body, after the batch is fetched: reconcile each document in order, then
advance the cursor (timestamp cursor to `now` whether or not the batch
was empty; identifier cursor to the last processed id only on a
non-empty batch), then sleep for the poll interval.  Any exception falls
to the `except` handler: cursor untouched, sleep doubled. -/
def pollCycleRun (cfg : PollConfig) (field : String) (batch : List Document)
    (now : Int) (st : LoopState) (target : Coll) : CycleOutcome :=
  match runDocs batch target none with
  | .error tb => .err st tb (2 * cfg.pollInterval)
  | .ok (t2, n, l) =>
    if n > 0 then
      if field = "_id" then
        .ok { st with lastProcessedId := l } t2 cfg.pollInterval
      else
        .ok { st with lastSync := now } t2 cfg.pollInterval
    else
      if field = "_id" then
        .ok st t2 cfg.pollInterval
      else
        .ok { st with lastSync := now } t2 cfg.pollInterval

/-- One iteration of the `while True` body.  `errAt = some k` injects an
external (connectivity) exception once `k` documents of the batch have
been reconciled, provided the batch is at least that long; exceptions
raised by `sync_document` itself abort on their own in `pollCycleRun`. -/
def pollCycle (cfg : PollConfig) (field : String) (source : List Document)
    (now : Int) (hour_ago_id : Int) (errAt : Option Nat) (st : LoopState)
    (target : Coll) : CycleOutcome :=
  match errAt with
  | some k =>
    if k ≤ (fetchBatch cfg field source st hour_ago_id).length then
      match runDocs ((fetchBatch cfg field source st hour_ago_id).take k) target none with
      | .error tb => .err st tb (2 * cfg.pollInterval)
      | .ok r => .err st r.1 (2 * cfg.pollInterval)
    else
      pollCycleRun cfg field (fetchBatch cfg field source st hour_ago_id) now st target
  | none =>
    pollCycleRun cfg field (fetchBatch cfg field source st hour_ago_id) now st target

/-- What one scheduled iteration of the loop observes: the clock reading
captured at the top of the cycle, the synthesized hour-ago id, the source
collection contents, and the external-error oracle. -/
structure CycleInput where
  now : Int
  hourAgoId : Int
  source : List Document
  errAt : Option Nat
deriving DecidableEq

/-- Run the loop over a finite schedule of cycles.  The `except` branch
never leaves the loop, so every scheduled cycle executes; the third
component accumulates the total time slept. -/
def runLoop (cfg : PollConfig) (field : String) :
    List CycleInput → LoopState → Coll → LoopState × Coll × Nat
  | [], st, t => (st, t, 0)
  | ci :: rest, st, t =>
    match pollCycle cfg field ci.source ci.now ci.hourAgoId ci.errAt st t with
    | .ok st2 t2 slp =>
      let r := runLoop cfg field rest st2 t2
      (r.1, r.2.1, slp + r.2.2)
    | .err st2 t2 slp =>
      let r := runLoop cfg field rest st2 t2
      (r.1, r.2.1, slp + r.2.2)

/-! ### Per-collection task and orchestrator -/

/-- The inputs one collection's task consumes: whether the detection
probe raises, the source contents the probes see, and the schedule of
poll cycles. -/
structure CollScript where
  probeFails : Bool
  initialSource : List Document
  inputs : List CycleInput
deriving DecidableEq

inductive TaskResult where
  | completed (st : LoopState) (target : Coll) (slept : Nat)
  | detectionAborted
deriving DecidableEq

/-- `sync_collection_polling`: the detection probes run once, before the
`while True` loop and outside its `except` handler, so a probe failure
escapes the function and the loop is never entered; otherwise the first
matching candidate field (or the `_id` fallback) is fixed for the
loop's whole lifetime. -/
def sync_collection_polling_run (cfg : PollConfig) (sc : CollScript)
    (st0 : LoopState) (t0 : Coll) : Except Unit (LoopState × Coll × Nat) :=
  if sc.probeFails then .error ()
  else
    .ok (runLoop cfg ((detectField sc.initialSource).getD "_id") sc.inputs st0 t0)

/-- `sync_collection`: wraps the polling loop in `try/except`, logging
and swallowing any escaping exception, so the task always returns. -/
def sync_collection_run (cfg : PollConfig) (sc : CollScript) (st0 : LoopState)
    (t0 : Coll) : TaskResult :=
  match sync_collection_polling_run cfg sc st0 t0 with
  | .error _ => .detectionAborted
  | .ok (st, t, n) => .completed st t n

/-- `main`: one independent task per collection, gathered with
`return_exceptions=True`: every outcome is collected, none re-raised. -/
def mainRun (cfg : PollConfig) (cols : List CollScript) (st0 : LoopState)
    (t0 : Coll) : List TaskResult :=
  cols.map (fun sc => sync_collection_run cfg sc st0 t0)

/-! ### Cursor ordering -/

/-- Advancement order on the identifier cursor: unchanged, first
initialization, or strict increase in Mongo order. -/
def cursorLe (o n : Option Val) : Prop :=
  o = n ∨ o = none ∨ ∃ a b, o = some a ∧ n = some b ∧ valLt a b = true

/-! ### Concrete instances used by witnesses and counterexamples -/

def docA : Document :=
  ⟨[("_id", Val.int 1), ("updatedAt", Val.int 5), ("v", Val.str "a")]⟩

def docB : Document :=
  ⟨[("_id", Val.int 1), ("updatedAt", Val.int 7), ("v", Val.str "b")]⟩

def dbEmpty : DB := fun _ => []

def dOne : Document := ⟨[("_id", Val.int 1), ("updatedAt", Val.int 1)]⟩

def dTwo : Document := ⟨[("_id", Val.int 2), ("updatedAt", Val.int 2)]⟩

def dThree : Document := ⟨[("_id", Val.int 3), ("updatedAt", Val.int 3)]⟩

/-- Three pending documents with timestamps 1, 2, 3: one more than the
batch cap used in the C4 counterexample. -/
def srcThree : List Document := [dOne, dTwo, dThree]

/-- Cycle `k` of the C4 counterexample schedule: the clock reads
`10 + k`, the source never changes, no external errors. -/
def c4Input (k : Nat) : CycleInput :=
  ⟨10 + (k : Int), 0, srcThree, none⟩

/-! ### Basic lemmas about the target-collection operations -/

theorem get_ne_none_of_some {d : Document} {f : String} {v : Val}
    (h : d.get f = some v) : d.fields ≠ [] := by
  intro hnil
  rw [Document.get, hnil] at h
  simp [List.find?] at h

theorem truthy_of_get {d : Document} {f : String} {v : Val}
    (h : d.get f = some v) : truthy d = true := by
  have := get_ne_none_of_some h
  simp [truthy, List.isEmpty_iff]
  exact this

theorem findOne_mem {c : Coll} {i : Val} {e : Document}
    (h : findOne c i = some e) : ∃ p ∈ c, p.1 = i ∧ p.2 = e := by
  rw [findOne] at h
  cases hf : c.find? (fun p => p.1 == i) with
  | none => rw [hf] at h; simp at h
  | some p =>
    rw [hf] at h
    have hmem := List.mem_of_find?_eq_some hf
    have hkey := List.find?_some hf
    simp at hkey h
    exact ⟨p, hmem, hkey, h⟩

theorem truthy_of_findOne {c : Coll} {i : Val} {e : Document}
    (hwf : WF c) (h : findOne c i = some e) : truthy e = true := by
  obtain ⟨p, hp, hkey, hpe⟩ := findOne_mem h
  have := hwf p hp
  rw [hpe] at this
  exact truthy_of_get this

theorem findOne_cons_self (c : Coll) (i : Val) (d : Document) :
    findOne ((i, d) :: c) i = some d := by
  simp [findOne, List.find?]

theorem findOne_cons_ne (c : Coll) (i j : Val) (d : Document) (h : j ≠ i) :
    findOne ((i, d) :: c) j = findOne c j := by
  have : (i == j) = false := by
    simp only [beq_eq_false_iff_ne]
    exact fun hij => h hij.symm
  simp [findOne, List.find?, this]

theorem findOne_replaceOne_self {c : Coll} {i : Val} {e : Document} (d : Document)
    (h : findOne c i = some e) : findOne (replaceOne c i d) i = some d := by
  induction c with
  | nil => simp [findOne] at h
  | cons p rest ih =>
    by_cases hp : p.1 = i
    · have hbeq : (p.1 == i) = true := by simpa using hp
      simp [replaceOne, findOne, List.find?, hbeq]
    · have hbeq : (p.1 == i) = false := by simpa using hp
      simp only [findOne, List.find?, hbeq] at h
      have hr := ih h
      simpa [replaceOne, findOne, List.find?, hbeq] using hr

theorem findOne_replaceOne_ne (c : Coll) (i j : Val) (d : Document) (h : j ≠ i) :
    findOne (replaceOne c i d) j = findOne c j := by
  induction c with
  | nil => simp [replaceOne, findOne]
  | cons p rest ih =>
    by_cases hp : p.1 = i
    · have hbeq : (p.1 == i) = true := by simpa using hp
      have hij : (i == j) = false := by
        simp only [beq_eq_false_iff_ne]
        exact fun hij => h hij.symm
      have hpj : (p.1 == j) = false := by rw [hp]; exact hij
      simpa [replaceOne, findOne, List.find?, hbeq, hij, hpj] using ih
    · have hbeq : (p.1 == i) = false := by simpa using hp
      cases hpj : (p.1 == j) with
      | true => simp [replaceOne, findOne, List.find?, hbeq, hpj]
      | false => simpa [replaceOne, findOne, List.find?, hbeq, hpj] using ih

/-! ### Lemmas about batch reconciliation and the poll cycle -/

theorem runDocs_length (batch : List Document) :
    ∀ (t : Coll) (acc : Option Val) (t2 : Coll) (n : Nat) (l : Option Val),
      runDocs batch t acc = .ok (t2, n, l) → n = batch.length := by
  induction batch with
  | nil =>
    intro t acc t2 n l h
    simp [runDocs] at h
    obtain ⟨rfl, rfl, rfl⟩ := h
    rfl
  | cons d ds ih =>
    intro t acc t2 n l h
    rw [runDocs] at h
    cases hs : sync_document d t with
    | none => rw [hs] at h; simp at h
    | some r =>
      simp only [hs] at h
      cases hr : runDocs ds r.1 (d.get "_id") with
      | error tb => rw [hr] at h; simp at h
      | ok res =>
        obtain ⟨t3, n3, l3⟩ := res
        rw [hr] at h
        simp at h
        obtain ⟨rfl, rfl, rfl⟩ := h
        have := ih r.1 (d.get "_id") t3 n3 l3 hr
        simp [this]

theorem runDocs_last (batch : List Document) :
    ∀ (t : Coll) (acc : Option Val) (t2 : Coll) (n : Nat) (l : Option Val)
      (dl : Document),
      runDocs batch t acc = .ok (t2, n, l) → batch.getLast? = some dl →
      l = dl.get "_id" := by
  induction batch with
  | nil => intro t acc t2 n l dl h hdl; simp at hdl
  | cons d ds ih =>
    intro t acc t2 n l dl h hdl
    rw [runDocs] at h
    cases hs : sync_document d t with
    | none => rw [hs] at h; simp at h
    | some r =>
      simp only [hs] at h
      cases hr : runDocs ds r.1 (d.get "_id") with
      | error tb => rw [hr] at h; simp at h
      | ok res =>
        obtain ⟨t3, n3, l3⟩ := res
        rw [hr] at h
        simp at h
        obtain ⟨rfl, rfl, rfl⟩ := h
        cases ds with
        | nil =>
          simp [runDocs] at hr
          simp at hdl
          subst hdl
          exact hr.2.2.symm
        | cons e es =>
          have hdl2 : (e :: es).getLast? = some dl := by
            simpa [List.getLast?_cons_cons] using hdl
          exact ih r.1 (d.get "_id") t3 n3 l3 dl hr hdl2

theorem mem_insertSorted {d x : Document} {l : List Document}
    (h : x ∈ insertSorted d l) : x = d ∨ x ∈ l := by
  induction l with
  | nil => simpa [insertSorted] using h
  | cons a as ih =>
    rw [insertSorted] at h
    by_cases hc : idKey d ≤ idKey a
    · rw [if_pos hc] at h
      simp only [List.mem_cons] at h ⊢
      tauto
    · rw [if_neg hc] at h
      simp only [List.mem_cons] at h ⊢
      rcases h with h | h
      · tauto
      · rcases ih h with h | h <;> tauto

theorem mem_sortById {x : Document} {l : List Document}
    (h : x ∈ sortById l) : x ∈ l := by
  induction l with
  | nil => simp [sortById] at h
  | cons a as ih =>
    have h2 : x ∈ insertSorted a (sortById as) := h
    rcases mem_insertSorted h2 with rfl | h3
    · exact List.mem_cons_self _ _
    · exact List.mem_cons_of_mem _ (ih h3)

theorem mem_fetchBatchId {x : Document} {source : List Document}
    {lastId : Option Val} {hour_ago_id : Int} {cap : Nat}
    (h : x ∈ fetchBatchId source lastId hour_ago_id cap) :
    matchesIdQuery lastId hour_ago_id x = true := by
  have h1 : x ∈ sortById (source.filter (matchesIdQuery lastId hour_ago_id)) :=
    List.take_subset _ _ h
  exact List.of_mem_filter (mem_sortById h1)

theorem pollCycleRun_ok_cases (cfg : PollConfig) (field : String)
    (batch : List Document) (now : Int) (st : LoopState) (target : Coll)
    (st2 : LoopState) (t2 : Coll) (slp : Nat)
    (h : pollCycleRun cfg field batch now st target = .ok st2 t2 slp) :
    ∃ n l, runDocs batch target none = .ok (t2, n, l) ∧ slp = cfg.pollInterval ∧
      ((field = "_id" ∧ n > 0 ∧ st2 = { st with lastProcessedId := l }) ∨
       (field = "_id" ∧ n = 0 ∧ st2 = st) ∨
       (field ≠ "_id" ∧ st2 = { st with lastSync := now })) := by
  rw [pollCycleRun] at h
  cases hr : runDocs batch target none with
  | error tb => simp only [hr] at h; simp at h
  | ok res =>
    obtain ⟨t3, n3, l3⟩ := res
    simp only [hr] at h
    by_cases hn : n3 > 0
    · rw [if_pos hn] at h
      by_cases hf : field = "_id"
      · rw [if_pos hf] at h
        simp at h
        obtain ⟨rfl, rfl, rfl⟩ := h
        exact ⟨n3, l3, rfl, rfl, Or.inl ⟨hf, hn, rfl⟩⟩
      · rw [if_neg hf] at h
        simp at h
        obtain ⟨rfl, rfl, rfl⟩ := h
        exact ⟨n3, l3, rfl, rfl, Or.inr (Or.inr ⟨hf, rfl⟩)⟩
    · rw [if_neg hn] at h
      by_cases hf : field = "_id"
      · rw [if_pos hf] at h
        simp at h
        obtain ⟨rfl, rfl, rfl⟩ := h
        exact ⟨n3, l3, rfl, rfl, Or.inr (Or.inl ⟨hf, Nat.eq_zero_of_not_pos hn, rfl⟩)⟩
      · rw [if_neg hf] at h
        simp at h
        obtain ⟨rfl, rfl, rfl⟩ := h
        exact ⟨n3, l3, rfl, rfl, Or.inr (Or.inr ⟨hf, rfl⟩)⟩

theorem pollCycleRun_err_cases (cfg : PollConfig) (field : String)
    (batch : List Document) (now : Int) (st : LoopState) (target : Coll)
    (st2 : LoopState) (t2 : Coll) (slp : Nat)
    (h : pollCycleRun cfg field batch now st target = .err st2 t2 slp) :
    st2 = st ∧ slp = 2 * cfg.pollInterval := by
  rw [pollCycleRun] at h
  cases hr : runDocs batch target none with
  | error tb =>
    simp only [hr] at h
    simp at h
    exact ⟨h.1.symm, h.2.2.symm⟩
  | ok res =>
    obtain ⟨t3, n3, l3⟩ := res
    simp only [hr] at h
    by_cases hn : n3 > 0 <;> by_cases hf : field = "_id" <;>
      simp [hn, hf] at h

theorem pollCycle_err_cases (cfg : PollConfig) (field : String)
    (source : List Document) (now hour_ago_id : Int) (errAt : Option Nat)
    (st : LoopState) (target : Coll) (st2 : LoopState) (t2 : Coll) (slp : Nat)
    (h : pollCycle cfg field source now hour_ago_id errAt st target =
      .err st2 t2 slp) :
    st2 = st ∧ slp = 2 * cfg.pollInterval := by
  cases errAt with
  | none => exact pollCycleRun_err_cases cfg field _ now st target st2 t2 slp h
  | some k =>
    simp only [pollCycle] at h
    by_cases hk : k ≤ (fetchBatch cfg field source st hour_ago_id).length
    · rw [if_pos hk] at h
      cases hr : runDocs ((fetchBatch cfg field source st hour_ago_id).take k)
          target none with
      | error tb =>
        simp only [hr] at h
        simp at h
        exact ⟨h.1.symm, h.2.2.symm⟩
      | ok r =>
        simp only [hr] at h
        simp at h
        exact ⟨h.1.symm, h.2.2.symm⟩
    · rw [if_neg hk] at h
      exact pollCycleRun_err_cases cfg field _ now st target st2 t2 slp h

theorem pollCycle_ok_elim (cfg : PollConfig) (field : String)
    (source : List Document) (now hour_ago_id : Int) (errAt : Option Nat)
    (st : LoopState) (target : Coll) (st2 : LoopState) (t2 : Coll) (slp : Nat)
    (h : pollCycle cfg field source now hour_ago_id errAt st target =
      .ok st2 t2 slp) :
    pollCycleRun cfg field (fetchBatch cfg field source st hour_ago_id) now st
      target = .ok st2 t2 slp := by
  cases errAt with
  | none => exact h
  | some k =>
    simp only [pollCycle] at h
    by_cases hk : k ≤ (fetchBatch cfg field source st hour_ago_id).length
    · rw [if_pos hk] at h
      cases hr : runDocs ((fetchBatch cfg field source st hour_ago_id).take k)
          target none with
      | error tb => simp only [hr] at h; simp at h
      | ok r => simp only [hr] at h; simp at h
    · rw [if_neg hk] at h
      exact h

/-! ### Claim C3 -/

/-- C3: under the timestamp strategy the cursor adopted after a
successful cycle equals the cycle's start time `now` captured at the top
of the cycle (not the maximum field value seen), even when the batch was
empty; under the identifier strategy a non-empty batch sets the cursor to
the `_id` of the last document processed, and an empty batch leaves the
state unchanged. -/
theorem C3_cursor_advance (cfg : PollConfig) (field : String)
    (source : List Document) (now hour_ago_id : Int) (st : LoopState)
    (target : Coll) (st2 : LoopState) (t2 : Coll) (slp : Nat)
    (h : pollCycle cfg field source now hour_ago_id none st target =
      .ok st2 t2 slp) :
    (field ≠ "_id" → st2.lastSync = now) ∧
    (field = "_id" →
      (fetchBatch cfg field source st hour_ago_id = [] → st2 = st) ∧
      (∀ dl, (fetchBatch cfg field source st hour_ago_id).getLast? = some dl →
        st2.lastProcessedId = dl.get "_id")) := by
  have hrun := pollCycle_ok_elim cfg field source now hour_ago_id none st target
    st2 t2 slp h
  obtain ⟨n, l, hr, -, hcases⟩ := pollCycleRun_ok_cases cfg field _ now st target
    st2 t2 slp hrun
  rcases hcases with ⟨hf, hn, hst⟩ | ⟨hf, hn, hst⟩ | ⟨hf, hst⟩
  · refine ⟨fun hne => absurd hf hne, fun _ => ⟨?_, ?_⟩⟩
    · intro hempty
      have hlen := runDocs_length _ _ _ _ _ _ hr
      rw [hempty] at hlen
      simp at hlen
      omega
    · intro dl hdl
      have hl := runDocs_last _ _ _ _ _ _ dl hr hdl
      rw [hst]
      simpa using hl
  · refine ⟨fun hne => absurd hf hne, fun _ => ⟨fun _ => hst, ?_⟩⟩
    intro dl hdl
    exfalso
    have hlen := runDocs_length _ _ _ _ _ _ hr
    have hne : fetchBatch cfg field source st hour_ago_id ≠ [] := by
      intro hempty
      rw [hempty] at hdl
      simp at hdl
    have : (fetchBatch cfg field source st hour_ago_id).length ≠ 0 := by
      intro h0
      exact hne (List.eq_nil_of_length_eq_zero h0)
    omega
  · exact ⟨fun _ => by rw [hst], fun hf2 => absurd hf2 hf⟩

theorem C3_witness :
    pollCycle ⟨2, 5⟩ "updatedAt" [docA] 10 0 none ⟨0, none⟩ [] =
      CycleOutcome.ok ⟨10, none⟩ [(Val.int 1, docA)] 5 ∧
    (⟨10, none⟩ : LoopState).lastSync = 10 := by
  have h := C3_cursor_advance ⟨2, 5⟩ "updatedAt" [docA] 10 0 ⟨0, none⟩ []
    ⟨10, none⟩ [(Val.int 1, docA)] 5 (by rfl)
  exact ⟨by rfl, h.1 (by decide)⟩

/-! ### Claim C5 -/

/-- C5: across any cycle, successful or failed, the stored cursor is
non-decreasing, given that the clock reading at the top of the cycle is
no earlier than the stored timestamp cursor; a failed cycle leaves the
cursor exactly unchanged. -/
theorem C5_cursor_monotone (cfg : PollConfig) (field : String)
    (source : List Document) (now hour_ago_id : Int) (errAt : Option Nat)
    (st : LoopState) (target : Coll)
    (hclock : st.lastSync ≤ now) :
    st.lastSync ≤
      (outState (pollCycle cfg field source now hour_ago_id errAt st target)).lastSync ∧
    cursorLe st.lastProcessedId
      (outState (pollCycle cfg field source now hour_ago_id errAt st target)).lastProcessedId := by
  cases hout : pollCycle cfg field source now hour_ago_id errAt st target with
  | err st2 t2 slp =>
    obtain ⟨rfl, -⟩ := pollCycle_err_cases cfg field source now hour_ago_id errAt
      st target st2 t2 slp hout
    exact ⟨le_refl _, Or.inl rfl⟩
  | ok st2 t2 slp =>
    have hrun := pollCycle_ok_elim cfg field source now hour_ago_id errAt st
      target st2 t2 slp hout
    obtain ⟨n, l, hr, -, hcases⟩ := pollCycleRun_ok_cases cfg field _ now st
      target st2 t2 slp hrun
    rcases hcases with ⟨hf, hn, hst⟩ | ⟨hf, hn, hst⟩ | ⟨hf, hst⟩
    · rw [hst]
      refine ⟨le_refl _, ?_⟩
      have hlen := runDocs_length _ _ _ _ _ _ hr
      have hbne : fetchBatch cfg field source st hour_ago_id ≠ [] := by
        intro hempty
        rw [hempty] at hlen
        simp at hlen
        omega
      obtain ⟨dl, hdl⟩ : ∃ dl,
          (fetchBatch cfg field source st hour_ago_id).getLast? = some dl :=
        ⟨_, List.getLast?_eq_getLast_of_ne_nil hbne⟩
      have hl := runDocs_last _ _ _ _ _ _ dl hr hdl
      have hdlmem : dl ∈ fetchBatch cfg field source st hour_ago_id := by
        obtain ⟨hne2, heq⟩ := List.mem_getLast?_eq_getLast hdl
        rw [heq]
        exact List.getLast_mem hne2
      rw [fetchBatch, if_pos hf] at hdlmem
      have hq := mem_fetchBatchId hdlmem
      rw [matchesIdQuery] at hq
      simp only [outState, cursorLe]
      cases hgid : dl.get "_id" with
      | none => rw [hgid] at hq; simp at hq
      | some v =>
        rw [hgid] at hq
        cases hlast : st.lastProcessedId with
        | none => exact Or.inr (Or.inl rfl)
        | some i =>
          rw [hlast] at hq
          refine Or.inr (Or.inr ⟨i, v, rfl, ?_, hq⟩)
          show l = some v
          rw [hl, hgid]
    · rw [hst]
      exact ⟨le_refl _, Or.inl rfl⟩
    · rw [hst]
      exact ⟨hclock, Or.inl rfl⟩

theorem C5_witness :
    (0 : Int) ≤ 10 ∧
    (0 : Int) ≤
      (outState (pollCycle ⟨2, 5⟩ "updatedAt" [docA] 10 0 none ⟨0, none⟩ [])).lastSync ∧
    cursorLe none
      (outState (pollCycle ⟨2, 5⟩ "updatedAt" [docA] 10 0 none ⟨0, none⟩ [])).lastProcessedId := by
  have h := C5_cursor_monotone ⟨2, 5⟩ "updatedAt" [docA] 10 0 none ⟨0, none⟩ []
    (by decide)
  exact ⟨by decide, h.1, h.2⟩

/-! ### Claim C6 -/

/-- C6: any error in a cycle (fetch or reconciliation) leaves the cursor
unchanged and makes the loop sleep exactly twice the configured poll
interval before retrying from the top; an injected error always yields
such an outcome; and there is no retry limit: a schedule of `n`
consecutive always-failing cycles runs all `n` cycles, keeps the cursor
and target unchanged, and accumulates `n` doubled sleeps. -/
theorem C6_error_backoff (cfg : PollConfig) (field : String)
    (source : List Document) (now hour_ago_id : Int) (errAt : Option Nat)
    (st : LoopState) (target : Coll) (st2 : LoopState) (t2 : Coll) (slp : Nat)
    (k n : Nat) :
    (pollCycle cfg field source now hour_ago_id errAt st target =
        .err st2 t2 slp →
      st2 = st ∧ slp = 2 * cfg.pollInterval) ∧
    (errAt = some k →
      k ≤ (fetchBatch cfg field source st hour_ago_id).length →
      ∃ tb, pollCycle cfg field source now hour_ago_id errAt st target =
        .err st tb (2 * cfg.pollInterval)) ∧
    runLoop cfg field (List.replicate n ⟨now, hour_ago_id, source, some 0⟩)
        st target = (st, target, n * (2 * cfg.pollInterval)) := by
  refine ⟨fun h => pollCycle_err_cases cfg field source now hour_ago_id errAt
    st target st2 t2 slp h, ?_, ?_⟩
  · intro hk hkle
    subst hk
    simp only [pollCycle]
    rw [if_pos hkle]
    cases hr : runDocs ((fetchBatch cfg field source st hour_ago_id).take k)
        target none with
    | error tb => exact ⟨tb, rfl⟩
    | ok r => exact ⟨r.1, rfl⟩
  · induction n with
    | zero => simp [runLoop]
    | succ m ih =>
      have hcyc : pollCycle cfg field source now hour_ago_id (some 0) st target =
          .err st target (2 * cfg.pollInterval) := by
        simp only [pollCycle]
        rw [if_pos (Nat.zero_le _)]
        simp [runDocs]
      simp only [List.replicate_succ, runLoop, hcyc, ih]
      simp [Nat.succ_mul, Nat.add_comm]

theorem C6_witness :
    ((⟨0, none⟩ : LoopState) = ⟨0, none⟩ ∧ 10 = 2 * 5) ∧
    (∃ tb, pollCycle ⟨2, 5⟩ "updatedAt" srcThree 10 0 (some 0) ⟨0, none⟩ [] =
      CycleOutcome.err ⟨0, none⟩ tb (2 * 5)) ∧
    runLoop ⟨2, 5⟩ "updatedAt" (List.replicate 3 ⟨10, 0, srcThree, some 0⟩)
      ⟨0, none⟩ [] = (⟨0, none⟩, [], 3 * (2 * 5)) := by
  have h := C6_error_backoff ⟨2, 5⟩ "updatedAt" srcThree 10 0 (some 0)
    ⟨0, none⟩ [] ⟨0, none⟩ [] 10 0 3
  exact ⟨h.1 (by decide), h.2.1 rfl (Nat.zero_le _), h.2.2⟩

/-! ### Claim C1 -/

/-- C1: `sync_document` reads the target by the source document's `_id`
and: inserts the full source document when the target document is
absent, signalling inserted; performs no write when the target document
is structurally equal to the source, signalling unchanged; performs a
whole-document replace keyed by the identifier when the target document
exists and differs, signalling updated. -/
theorem C1_sync_document_cases (source_doc : Document) (target : Coll) (i : Val)
    (hid : source_doc.get "_id" = some i) (hwf : WF target) :
    (findOne target i = none →
      sync_document source_doc target =
        some ((i, source_doc) :: target, SyncSignal.inserted)) ∧
    (∀ e, findOne target i = some e → e = source_doc →
      sync_document source_doc target = some (target, SyncSignal.unchanged)) ∧
    (∀ e, findOne target i = some e → e ≠ source_doc →
      sync_document source_doc target =
        some (replaceOne target i source_doc, SyncSignal.updated)) := by
  refine ⟨?_, ?_, ?_⟩
  · intro hnone
    simp [sync_document, hid, hnone, insertOne]
  · intro e he heq
    subst heq
    have ht := truthy_of_findOne hwf he
    simp [sync_document, hid, he, ht]
  · intro e he hne
    have ht := truthy_of_findOne hwf he
    simp [sync_document, hid, he, ht, hne]

theorem C1_witness :
    findOne ([] : Coll) (Val.int 1) = none ∧
    sync_document docA [] = some ([(Val.int 1, docA)], SyncSignal.inserted) := by
  have h := C1_sync_document_cases docA [] (Val.int 1) (by rfl)
    (by intro p hp; exact absurd hp (List.not_mem_nil p))
  exact ⟨rfl, h.1 rfl⟩

/-! ### Claim C2 -/

/-- C2: running `sync_document` twice in a row on the same document and
target state produces the same target state as running it once, and the
second run performs no write and signals unchanged. -/
theorem C2_idempotent (source_doc : Document) (target : Coll) (i : Val)
    (hid : source_doc.get "_id" = some i) (hwf : WF target) :
    ∃ t1 s1, sync_document source_doc target = some (t1, s1) ∧
      sync_document source_doc t1 = some (t1, SyncSignal.unchanged) := by
  have htsrc : truthy source_doc = true := truthy_of_get hid
  cases hfind : findOne target i with
  | none =>
    refine ⟨(i, source_doc) :: target, SyncSignal.inserted, ?_, ?_⟩
    · simp [sync_document, hid, hfind, insertOne]
    · have hf1 : findOne ((i, source_doc) :: target) i = some source_doc :=
        findOne_cons_self target i source_doc
      simp [sync_document, hid, hf1, htsrc]
  | some e =>
    have ht := truthy_of_findOne hwf hfind
    by_cases heq : e = source_doc
    · subst heq
      exact ⟨target, SyncSignal.unchanged,
        by simp [sync_document, hid, hfind, ht],
        by simp [sync_document, hid, hfind, ht]⟩
    · refine ⟨replaceOne target i source_doc, SyncSignal.updated, ?_, ?_⟩
      · simp [sync_document, hid, hfind, ht, heq]
      · have hf1 : findOne (replaceOne target i source_doc) i = some source_doc :=
          findOne_replaceOne_self source_doc hfind
        simp [sync_document, hid, hf1, htsrc]

theorem C2_witness :
    ∃ t1 s1, sync_document docA [] = some (t1, s1) ∧
      sync_document docA t1 = some (t1, SyncSignal.unchanged) :=
  C2_idempotent docA [] (Val.int 1) (by rfl)
    (by intro p hp; exact absurd hp (List.not_mem_nil p))

/-! ### Claim C10 -/

/-- C10: an invocation of `sync_document` on a source document with
identifier `i` only touches the target document keyed `i`: every target
document with a different identifier is unchanged, and through
`target_db[collection_name]` every other target collection is
unchanged. -/
theorem C10_frame (source_doc : Document) (target : Coll) (i j : Val)
    (db : DB) (collection_name other : String) (t2 : Coll) (s : SyncSignal)
    (db2 : DB) (s2 : SyncSignal)
    (hid : source_doc.get "_id" = some i) (hne : j ≠ i)
    (h : sync_document source_doc target = some (t2, s))
    (hother : other ≠ collection_name)
    (hdb : sync_document_db source_doc db collection_name = some (db2, s2)) :
    findOne t2 j = findOne target j ∧ db2 other = db other := by
  constructor
  · simp only [sync_document, hid] at h
    cases hfind : findOne target i with
    | none =>
      simp [insertOne, hfind] at h
      obtain ⟨rfl, rfl⟩ := h
      exact findOne_cons_ne target i j source_doc hne
    | some e =>
      simp only [hfind] at h
      cases htr : truthy e with
      | false =>
        simp [htr, insertOne, hfind] at h
      | true =>
        by_cases heq : e = source_doc
        · subst heq
          simp [htr] at h
          obtain ⟨rfl, rfl⟩ := h
          rfl
        · simp [htr, heq] at h
          obtain ⟨rfl, rfl⟩ := h
          exact findOne_replaceOne_ne target i j source_doc hne
  · rw [sync_document_db] at hdb
    cases hsync : sync_document source_doc (db collection_name) with
    | none => rw [hsync] at hdb; simp at hdb
    | some r =>
      rw [hsync] at hdb
      simp at hdb
      rw [← hdb.1, dbUpdate]
      simp [hother]

theorem C10_witness :
    findOne [(Val.int 1, docA)] (Val.int 2) = findOne ([] : Coll) (Val.int 2) ∧
    dbUpdate dbEmpty "c1" [(Val.int 1, docA)] "c2" = dbEmpty "c2" :=
  C10_frame docA [] (Val.int 1) (Val.int 2) dbEmpty "c1" "c2"
    [(Val.int 1, docA)] SyncSignal.inserted
    (dbUpdate dbEmpty "c1" [(Val.int 1, docA)]) SyncSignal.inserted
    (by rfl) (by decide) (by rfl) (by decide) (by rfl)

/-! ### Order lemmas for the identifier-sorted batch -/

theorem insertSorted_perm (d : Document) (l : List Document) :
    List.Perm (insertSorted d l) (d :: l) := by
  induction l with
  | nil => exact List.Perm.refl _
  | cons a as ih =>
    rw [insertSorted]
    by_cases hc : idKey d ≤ idKey a
    · rw [if_pos hc]
    · rw [if_neg hc]
      exact List.Perm.trans (ih.cons a) (List.Perm.swap d a as)

theorem sortById_perm (l : List Document) : List.Perm (sortById l) l := by
  induction l with
  | nil => exact List.Perm.refl _
  | cons a as ih =>
    exact List.Perm.trans (insertSorted_perm a (sortById as)) (ih.cons a)

theorem insertSorted_pairwise {d : Document} {l : List Document}
    (h : l.Pairwise (fun x y => idKey x ≤ idKey y)) :
    (insertSorted d l).Pairwise (fun x y => idKey x ≤ idKey y) := by
  induction l with
  | nil => simp [insertSorted]
  | cons a as ih =>
    rw [insertSorted]
    rcases List.pairwise_cons.mp h with ⟨ha, has⟩
    by_cases hc : idKey d ≤ idKey a
    · rw [if_pos hc]
      refine List.pairwise_cons.mpr ⟨?_, h⟩
      intro x hx
      rcases List.mem_cons.mp hx with rfl | hx2
      · exact hc
      · exact le_trans hc (ha x hx2)
    · rw [if_neg hc]
      refine List.pairwise_cons.mpr ⟨?_, ih has⟩
      intro x hx
      rcases mem_insertSorted hx with rfl | hx2
      · exact le_of_not_le hc
      · exact ha x hx2

theorem sortById_pairwise (l : List Document) :
    (sortById l).Pairwise (fun x y => idKey x ≤ idKey y) := by
  induction l with
  | nil => simp [sortById]
  | cons a as ih => exact insertSorted_pairwise ih

theorem sortById_pairwise_lt {l : List Document}
    (hnd : (l.map idKey).Nodup) :
    (sortById l).Pairwise (fun x y => idKey x < idKey y) := by
  have hperm : List.Perm (sortById l) l := sortById_perm l
  have hnd2 : ((sortById l).map idKey).Nodup :=
    ((hperm.map idKey).nodup_iff).mpr hnd
  have hne : (sortById l).Pairwise (fun x y => idKey x ≠ idKey y) :=
    List.pairwise_map.mp hnd2
  have hle := sortById_pairwise l
  exact (hle.and hne).imp (fun h => lt_of_le_of_ne h.1 h.2)

theorem batch_lt_of_not_mem {source : List Document} {lastId : Option Val}
    {hour_ago_id : Int} {cap : Nat} {d dl : Document}
    (hnd : ((source.filter (matchesIdQuery lastId hour_ago_id)).map idKey).Nodup)
    (hdl : (fetchBatchId source lastId hour_ago_id cap).getLast? = some dl)
    (hd : d ∈ source.filter (matchesIdQuery lastId hour_ago_id))
    (hdnot : d ∉ fetchBatchId source lastId hour_ago_id cap) :
    idKey dl < idKey d := by
  rw [fetchBatchId] at hdl hdnot
  have hpw : (sortById (source.filter (matchesIdQuery lastId
      hour_ago_id))).Pairwise (fun x y => idKey x < idKey y) :=
    sortById_pairwise_lt hnd
  have hmem_s : d ∈ sortById (source.filter (matchesIdQuery lastId hour_ago_id)) :=
    (sortById_perm _).mem_iff.mpr hd
  have hd_drop : d ∈ (sortById (source.filter (matchesIdQuery lastId
      hour_ago_id))).drop cap := by
    have hsplit := List.take_append_drop cap
      (sortById (source.filter (matchesIdQuery lastId hour_ago_id)))
    rcases List.mem_append.mp (hsplit ▸ hmem_s) with h1 | h1
    · exact absurd h1 hdnot
    · exact h1
  have hdl_take : dl ∈ (sortById (source.filter (matchesIdQuery lastId
      hour_ago_id))).take cap := by
    obtain ⟨hne, heq⟩ := List.mem_getLast?_eq_getLast hdl
    rw [heq]
    exact List.getLast_mem hne
  have hpw2 : ((sortById (source.filter (matchesIdQuery lastId
      hour_ago_id))).take cap ++ (sortById (source.filter (matchesIdQuery lastId
      hour_ago_id))).drop cap).Pairwise (fun x y => idKey x < idKey y) := by
    rw [List.take_append_drop]
    exact hpw
  exact (List.pairwise_append.mp hpw2).2.2 dl hdl_take d hd_drop

theorem idquery_int {lastId : Option Val} {ha : Int} {d : Document}
    (hq : matchesIdQuery lastId ha d = true) :
    d.get "_id" = some (.int (idKey d)) := by
  rw [matchesIdQuery] at hq
  cases hg : d.get "_id" with
  | none => rw [hg] at hq; simp at hq
  | some v =>
    rw [hg] at hq
    cases lastId with
    | none =>
      cases v with
      | int x => simp [idKey, hg]
      | str s => simp [valLe] at hq
      | boolV b => simp [valLe] at hq
      | null => simp [valLe] at hq
    | some i =>
      cases v with
      | int x => simp [idKey, hg]
      | str s => cases i <;> simp [valLt] at hq
      | boolV b => cases i <;> simp [valLt] at hq
      | null => cases i <;> simp [valLt] at hq

theorem matchesTs_srcThree_empty {c : Int} (hc : 3 ≤ c) :
    srcThree.filter (matchesTsQuery "updatedAt" c) = [] := by
  have m1 : matchesTsQuery "updatedAt" c dOne = false := by
    have hg : dOne.get "updatedAt" = some (Val.int 1) := by decide
    simp only [matchesTsQuery, hg, valLt, decide_eq_false_iff_not]
    omega
  have m2 : matchesTsQuery "updatedAt" c dTwo = false := by
    have hg : dTwo.get "updatedAt" = some (Val.int 2) := by decide
    simp only [matchesTsQuery, hg, valLt, decide_eq_false_iff_not]
    omega
  have m3 : matchesTsQuery "updatedAt" c dThree = false := by
    have hg : dThree.get "updatedAt" = some (Val.int 3) := by decide
    simp only [matchesTsQuery, hg, valLt, decide_eq_false_iff_not]
    omega
  simp [srcThree, List.filter_cons, m1, m2, m3]

theorem c4_no_pickup (inputs : List CycleInput) :
    ∀ (st : LoopState) (t : Coll),
      (∀ ci ∈ inputs,
        ci.source = srcThree ∧ (10 : Int) ≤ ci.now ∧ ci.errAt = none) →
      (10 : Int) ≤ st.lastSync →
      findOne t (Val.int 3) = none →
      (10 : Int) ≤ (runLoop ⟨2, 5⟩ "updatedAt" inputs st t).1.lastSync ∧
      findOne (runLoop ⟨2, 5⟩ "updatedAt" inputs st t).2.1 (Val.int 3) = none := by
  induction inputs with
  | nil =>
    intro st t hin hst ht
    exact ⟨hst, ht⟩
  | cons ci rest ih =>
    intro st t hin hst ht
    obtain ⟨hsrc, hnow, herr⟩ := hin ci (List.mem_cons_self _ _)
    have hrest := fun x hx => hin x (List.mem_cons_of_mem _ hx)
    have hbatch : fetchBatch ⟨2, 5⟩ "updatedAt" ci.source st ci.hourAgoId = [] := by
      rw [fetchBatch, if_neg (by decide : ¬ ("updatedAt" = "_id")), hsrc,
        fetchBatchTs, matchesTs_srcThree_empty (by omega)]
      rfl
    have hcyc : pollCycle ⟨2, 5⟩ "updatedAt" ci.source ci.now ci.hourAgoId none
        st t = CycleOutcome.ok { st with lastSync := ci.now } t 5 := by
      simp only [pollCycle, hbatch, pollCycleRun, runDocs]
      simp
    have hIH := ih { st with lastSync := ci.now } t hrest (by simpa using hnow) ht
    simp only [runLoop, herr, hcyc]
    exact hIH

/-! ### Claim C4 -/

/-- C4 amended: a poll cycle's batch is capped exactly at the configured
size whenever at least that many documents are pending, under both
strategies; under the identifier strategy every pending document left out
of the capped batch still matches the query issued with the advanced
cursor (the last batch document's `_id`), so it is picked up by
subsequent cycles; under the timestamp strategy a pending document whose
field value is not past the poll start time `now` no longer matches once
the cursor has advanced to `now`, so it is never fetched again. -/
theorem C4_batch_cap (source : List Document) (f : String) (last_sync : Int)
    (lastId : Option Val) (hour_ago_id : Int) (cap : Nat) (d dl : Document)
    (now : Int) :
    (cap ≤ (source.filter (matchesTsQuery f last_sync)).length →
      (fetchBatchTs source f last_sync cap).length = cap) ∧
    (cap ≤ (source.filter (matchesIdQuery lastId hour_ago_id)).length →
      (fetchBatchId source lastId hour_ago_id cap).length = cap) ∧
    (((source.filter (matchesIdQuery lastId hour_ago_id)).map idKey).Nodup →
      (fetchBatchId source lastId hour_ago_id cap).getLast? = some dl →
      d ∈ source.filter (matchesIdQuery lastId hour_ago_id) →
      d ∉ fetchBatchId source lastId hour_ago_id cap →
      matchesIdQuery (dl.get "_id") hour_ago_id d = true) ∧
    (∀ x : Int, d.get f = some (.int x) → x ≤ now →
      matchesTsQuery f now d = false) := by
  refine ⟨?_, ?_, ?_, ?_⟩
  · intro hcap
    rw [fetchBatchTs, List.length_take]
    exact Nat.min_eq_left hcap
  · intro hcap
    rw [fetchBatchId, List.length_take, (sortById_perm _).length_eq]
    exact Nat.min_eq_left hcap
  · intro hnd hdl hd hdnot
    have hlt := batch_lt_of_not_mem hnd hdl hd hdnot
    have hqd := List.of_mem_filter hd
    have hdid := idquery_int hqd
    have hdlmem : dl ∈ source.filter (matchesIdQuery lastId hour_ago_id) := by
      rw [fetchBatchId] at hdl
      obtain ⟨hne, heq⟩ := List.mem_getLast?_eq_getLast hdl
      rw [heq]
      exact (sortById_perm _).mem_iff.mp
        (List.take_subset _ _ (List.getLast_mem hne))
    have hdlid := idquery_int (List.of_mem_filter hdlmem)
    simp only [matchesIdQuery, hdid, hdlid, valLt]
    simpa using hlt
  · intro x hx hxle
    simp only [matchesTsQuery, hx, valLt, decide_eq_false_iff_not]
    omega

theorem C4_witness :
    (fetchBatchTs srcThree "updatedAt" 0 2).length = 2 ∧
    (fetchBatchId srcThree none 0 2).length = 2 ∧
    matchesIdQuery (dTwo.get "_id") 0 dThree = true ∧
    matchesTsQuery "updatedAt" 10 dThree = false := by
  have h := C4_batch_cap srcThree "updatedAt" 0 none 0 2 dThree dTwo 10
  exact ⟨h.1 (by decide), h.2.1 (by decide),
    h.2.2.1 (by decide) (by decide) (by decide) (by decide),
    h.2.2.2 3 (by decide) (by decide)⟩

/-- C4 counterexample: with the timestamp strategy, three pending
documents and a cap of two, the first cycle syncs two documents and
advances the cursor to the poll start time 10; the third document
(timestamp 3) then never matches any later query, so no number of
subsequent cycles ever delivers it to the target. -/
theorem C4_counterexample :
    (fetchBatchTs srcThree "updatedAt" 0 2).length = 2 ∧
    (srcThree.filter (matchesTsQuery "updatedAt" 0)).length = 3 ∧
    ¬ ∃ nCycles : Nat,
      (findOne (runLoop ⟨2, 5⟩ "updatedAt" ((List.range nCycles).map c4Input)
        ⟨0, none⟩ []).2.1 (Val.int 3)).isSome = true := by
  refine ⟨by decide, by decide, ?_⟩
  rintro ⟨nC, hn⟩
  cases nC with
  | zero => simp [runLoop, findOne] at hn
  | succ m =>
    rw [List.range_succ_eq_map, List.map_cons, List.map_map] at hn
    have hcyc0 : pollCycle ⟨2, 5⟩ "updatedAt" srcThree (10 + ((0 : Nat) : Int)) 0
        none ⟨0, none⟩ [] =
        CycleOutcome.ok ⟨10 + ((0 : Nat) : Int), none⟩
          [(Val.int 2, dTwo), (Val.int 1, dOne)] 5 := by decide
    simp only [runLoop, c4Input, hcyc0] at hn
    have hinv := c4_no_pickup ((List.range m).map (c4Input ∘ Nat.succ))
      ⟨10 + ((0 : Nat) : Int), none⟩ [(Val.int 2, dTwo), (Val.int 1, dOne)]
      (by
        intro ci hci
        rw [List.mem_map] at hci
        obtain ⟨k, -, rfl⟩ := hci
        refine ⟨rfl, ?_, rfl⟩
        show (10 : Int) ≤ 10 + ((k + 1 : Nat) : Int)
        omega)
      (by show (10 : Int) ≤ 10 + ((0 : Nat) : Int); omega)
      (by decide)
    rw [hinv.2] at hn
    simp at hn

/-! ### Claim C7 -/

/-- C7 amended: a failing ordering-field probe raises out of
`sync_collection_polling` (the probes run before the `while True` loop
and outside its handler), is caught and logged by `sync_collection`, and
the task returns: that collection's replication terminates, and
detection is never retried. -/
theorem C7_detection_failure_aborts (cfg : PollConfig) (sc : CollScript)
    (st0 : LoopState) (t0 : Coll) (h : sc.probeFails = true) :
    sync_collection_polling_run cfg sc st0 t0 = .error () ∧
    sync_collection_run cfg sc st0 t0 = .detectionAborted := by
  have h1 : sync_collection_polling_run cfg sc st0 t0 = .error () := by
    rw [sync_collection_polling_run, if_pos h]
  refine ⟨h1, ?_⟩
  simp only [sync_collection_run, h1]

theorem C7_witness :
    sync_collection_polling_run ⟨2, 5⟩ ⟨true, [docA], []⟩ ⟨0, none⟩ [] =
      Except.error () ∧
    sync_collection_run ⟨2, 5⟩ ⟨true, [docA], []⟩ ⟨0, none⟩ [] =
      TaskResult.detectionAborted :=
  C7_detection_failure_aborts ⟨2, 5⟩ ⟨true, [docA], []⟩ ⟨0, none⟩ [] rfl

/-- C7 counterexample: a collection whose probe fails, with two poll
cycles scheduled, reaches `detectionAborted`: the loop is never entered
and detection is never re-attempted, contradicting the claim that the
loop backs off and re-enters detection on the next cycle. -/
theorem C7_counterexample :
    sync_collection_run ⟨2, 5⟩
      ⟨true, srcThree, [⟨10, 0, srcThree, none⟩, ⟨20, 0, srcThree, none⟩]⟩
      ⟨0, none⟩ [] = TaskResult.detectionAborted ∧
    sync_collection_run ⟨2, 5⟩
      ⟨false, srcThree, [⟨10, 0, srcThree, none⟩, ⟨20, 0, srcThree, none⟩]⟩
      ⟨0, none⟩ [] ≠ TaskResult.detectionAborted := by
  exact ⟨rfl, by decide⟩

/-! ### Claim C8 -/

/-- C8: one collection's failure never crosses collection boundaries:
the outcome `main` collects for collection `j` depends only on that
collection's own script, and `main` collects exactly one outcome per
collection without re-raising. -/
theorem C8_error_isolation (cfg : PollConfig) (cols1 cols2 : List CollScript)
    (st0 : LoopState) (t0 : Coll) (j : Nat)
    (h : cols1[j]? = cols2[j]?) :
    (mainRun cfg cols1 st0 t0)[j]? = (mainRun cfg cols2 st0 t0)[j]? ∧
    (mainRun cfg cols1 st0 t0).length = cols1.length := by
  constructor
  · rw [mainRun, mainRun, List.getElem?_map, List.getElem?_map, h]
  · exact List.length_map _ _

theorem C8_witness :
    (mainRun ⟨2, 5⟩ [⟨true, [], []⟩, ⟨false, [docA], []⟩] ⟨0, none⟩ [])[1]? =
      (mainRun ⟨2, 5⟩ [⟨false, [docA], []⟩, ⟨false, [docA], []⟩] ⟨0, none⟩ [])[1]? ∧
    (mainRun ⟨2, 5⟩ [⟨true, [], []⟩, ⟨false, [docA], []⟩] ⟨0, none⟩ []).length = 2 :=
  C8_error_isolation ⟨2, 5⟩ [⟨true, [], []⟩, ⟨false, [docA], []⟩]
    [⟨false, [docA], []⟩, ⟨false, [docA], []⟩] ⟨0, none⟩ [] 1 (by decide)

/-! ### Claim C9 -/

/-- C9 amended: the detector falls back only when no candidate field
matches any document, which forces `_id` to be absent from every
document; conversely, for every non-empty collection whose documents all
carry `_id`, the detector binds some candidate field through a
successful existence probe.  (An empty collection vacuously satisfies
"every document contains `_id`" yet still falls back.) -/
theorem C9_detector_fallback (source : List Document) :
    (detectField source = none → ∀ d ∈ source, d.hasField "_id" = false) ∧
    (source ≠ [] → (∀ d ∈ source, d.hasField "_id" = true) →
      (detectField source).isSome = true) := by
  have hkey : detectField source = none →
      ∀ d ∈ source, d.hasField "_id" = false := by
    intro hnone d hd
    rw [detectField] at hnone
    have h2 := List.find?_eq_none.mp hnone "_id" (by decide)
    simp only [Bool.not_eq_true, List.any_eq_false] at h2
    have h3 := h2 d hd
    simpa using h3
  refine ⟨hkey, ?_⟩
  intro hne hall
  cases hdet : detectField source with
  | some f => rfl
  | none =>
    exfalso
    obtain ⟨a, as, rfl⟩ := List.exists_cons_of_ne_nil hne
    have hf := hkey hdet a (List.mem_cons_self _ _)
    have ht := hall a (List.mem_cons_self _ _)
    rw [ht] at hf
    simp at hf

theorem C9_witness : (detectField [docA]).isSome = true :=
  (C9_detector_fallback [docA]).2 (by decide) (by decide)

/-- C9 counterexample: the empty source collection.  Every document of
it (vacuously) contains `_id`, yet no candidate field matches any
document, so the detector binds nothing and the code takes the fallback
branch. -/
theorem C9_counterexample :
    detectField [] = none ∧
    (([] : List Document).all (fun d => d.hasField "_id")) = true :=
  ⟨rfl, rfl⟩

end PollSync
